import Mathlib

/-
Verification of the Havven/terra-luna agent-based market simulation.

The development shallowly embeds the balance ledger, the minting facility,
the order-book market helpers and the model step of the repository.
Monetary quantities (Python exact decimals) are embedded as rationals.
Definitions carrying a doc comment starting with the words Modelled from
the spec stand for repository code that is only declared or called from
the embedded files; they follow the specification text.
-/

/-- The three fungible assets of the system: the reference currency (fiat),
the collateral token (havvens, called curits in older modules) and the
collateral-backed stablecoin (nomins). -/
inductive Asset : Type
  | fiat
  | havvens
  | nomins
deriving DecidableEq

/-- The balance state of one MarketPlayer agent (marketplayer.py, constructor):
asset balances, escrowed collateral, issued stablecoin liability, the
reservation counters backing open orders, and the recorded initial wealth. -/
structure MarketPlayer : Type where
  fiat : ℚ
  havvens : ℚ
  nomins : ℚ
  escrowed_havvens : ℚ
  issued_nomins : ℚ
  unavailable_fiat : ℚ
  unavailable_havvens : ℚ
  unavailable_nomins : ℚ
  initial_wealth : ℚ
deriving DecidableEq

/-- Round a rational to the nearest integer, ties to the even integer
(bankers rounding, the rounding mode of Python decimal ROUND_HALF_EVEN). -/
def roundHalfEven (x : ℚ) : ℤ :=
  let n := ⌊x⌋
  let f := x - (n : ℚ)
  if f < 1/2 then n
  else if 1/2 < f then n + 1
  else if n % 2 = 0 then n else n + 1

/-- Modelled from the spec: HavvenManager.round_decimal (havvenmanager.py is
missing from the embedded sources).  The spec prescribes one canonical
rounding rule, round-half-even to a fixed decimal precision; the standard
currency precision of eight decimal places is used. -/
def round_decimal (x : ℚ) : ℚ :=
  (roundHalfEven (x * 10^8) : ℚ) / 10^8

/-- A rational is at currency precision when it is an integer multiple of
ten to the minus eight. -/
def atPrecision (x : ℚ) : Prop :=
  ∃ n : ℤ, x = (n : ℚ) / 10^8

theorem roundHalfEven_intCast (n : ℤ) : roundHalfEven (n : ℚ) = n := by
  rw [roundHalfEven, Int.floor_intCast]
  norm_num

theorem round_decimal_atPrecision {x : ℚ} (h : atPrecision x) :
    round_decimal x = x := by
  obtain ⟨n, rfl⟩ := h
  have hne : ((10 : ℚ)^8) ≠ 0 := by norm_num
  rw [round_decimal, div_mul_cancel₀ _ hne, roundHalfEven_intCast]

theorem round_decimal_zero : round_decimal 0 = 0 := by
  have := round_decimal_atPrecision (x := 0) ⟨0, by norm_num⟩
  simpa using this

/-- MarketPlayer.available_fiat (marketplayer.py line 442): balance of fiat
not tied up in orders, canonically rounded. -/
def available_fiat (p : MarketPlayer) : ℚ :=
  round_decimal (p.fiat - p.unavailable_fiat)

/-- MarketPlayer.available_havvens (marketplayer.py line 449). -/
def available_havvens (p : MarketPlayer) : ℚ :=
  round_decimal (p.havvens - p.unavailable_havvens)

/-- MarketPlayer.available_nomins (marketplayer.py line 456). -/
def available_nomins (p : MarketPlayer) : ℚ :=
  round_decimal (p.nomins - p.unavailable_nomins)

/-- Balance of the given asset (the source resolves attribute names such as
available_fiat dynamically from the asset name; the embedding uses an
explicit asset enum). -/
def balanceOf : Asset → MarketPlayer → ℚ
  | .fiat, p => p.fiat
  | .havvens, p => p.havvens
  | .nomins, p => p.nomins

/-- Reservation counter of the given asset. -/
def unavailableOf : Asset → MarketPlayer → ℚ
  | .fiat, p => p.unavailable_fiat
  | .havvens, p => p.unavailable_havvens
  | .nomins, p => p.unavailable_nomins

/-- Available balance of the given asset, dispatching to the three source
accessors exactly as the dynamic attribute lookup of the source does. -/
def availableOf : Asset → MarketPlayer → ℚ
  | .fiat, p => available_fiat p
  | .havvens, p => available_havvens p
  | .nomins, p => available_nomins p

/-- Add a (possibly negative) amount to the balance of one asset. -/
def addBalance : Asset → ℚ → MarketPlayer → MarketPlayer
  | .fiat, d, p => { p with fiat := p.fiat + d }
  | .havvens, d, p => { p with havvens := p.havvens + d }
  | .nomins, d, p => { p with nomins := p.nomins + d }

/-- Add a (possibly negative) amount to the reservation counter of one asset. -/
def addUnavailable : Asset → ℚ → MarketPlayer → MarketPlayer
  | .fiat, d, p => { p with unavailable_fiat := p.unavailable_fiat + d }
  | .havvens, d, p => { p with unavailable_havvens := p.unavailable_havvens + d }
  | .nomins, d, p => { p with unavailable_nomins := p.unavailable_nomins + d }

theorem availableOf_eq (x : Asset) (p : MarketPlayer) :
    availableOf x p = round_decimal (balanceOf x p - unavailableOf x p) := by
  cases x <;> rfl

theorem balanceOf_addBalance (x : Asset) (d : ℚ) (p : MarketPlayer) :
    balanceOf x (addBalance x d p) = balanceOf x p + d := by
  cases x <;> rfl

theorem unavailableOf_addBalance (x : Asset) (d : ℚ) (p : MarketPlayer) :
    unavailableOf x (addBalance x d p) = unavailableOf x p := by
  cases x <;> rfl

/-- Modelled from the spec: the injected pricing oracle (model.fiat_value
delegates to cur_to_fiat and nom_to_fiat of the missing trade_manager
module).  The oracle converts collateral and stablecoin quantities to the
reference currency at its current prices. -/
structure HavvenModel : Type where
  havven_price : ℚ
  nomin_price : ℚ

/-- Havven.fiat_value (model.py lines 119-121): equivalent fiat value of a
basket, the sum of each quantity converted at the oracle price. -/
def fiat_value (m : HavvenModel) (havvens nomins fiat : ℚ) : ℚ :=
  m.havven_price * havvens + m.nomin_price * nomins + fiat

/-- MarketPlayer.wealth (marketplayer.py lines 92-98): total wealth at
current fiat prices, valuing held plus escrowed collateral and the net
stablecoin position nomins minus issued_nomins. -/
def wealth (m : HavvenModel) (p : MarketPlayer) : ℚ :=
  fiat_value m (p.havvens + p.escrowed_havvens) (p.nomins - p.issued_nomins) p.fiat

/-- MarketPlayer.profit (marketplayer.py lines 131-136). -/
def profit (m : HavvenModel) (p : MarketPlayer) : ℚ :=
  wealth m p - p.initial_wealth

/-- MarketPlayer.profit_fraction (marketplayer.py lines 138-146): profit as
a fraction of initial wealth, guarded by the rounded initial wealth. -/
def profit_fraction (m : HavvenModel) (p : MarketPlayer) : ℚ :=
  if round_decimal p.initial_wealth ≠ 0 then
    round_decimal (profit m p / p.initial_wealth)
  else 0

/-- Modelled from the spec: the configuration of the mint (section 4.3),
the oracle price from collateral to stablecoin terms and the global
utilisation ratio cap. -/
structure MintConfig : Type where
  cur_nom_price : ℚ
  utilisation_ratio_max : ℚ

/-- Modelled from the spec: Mint.max_issuance_rights (the mint module is
missing from the embedded sources), the escrowed collateral valued in
stablecoin terms scaled by the utilisation ratio cap. -/
def max_issuance_rights (cfg : MintConfig) (p : MarketPlayer) : ℚ :=
  p.escrowed_havvens * cfg.cur_nom_price * cfg.utilisation_ratio_max

/-- Modelled from the spec: Mint.issue_nomins (section 4.3).  Fails when
the quantity exceeds the remaining issuance rights; otherwise increases
both the stablecoin balance and the issued liability by the quantity. -/
def issue_nomins (cfg : MintConfig) (q : ℚ) (p : MarketPlayer) :
    Option MarketPlayer :=
  if max_issuance_rights cfg p - p.issued_nomins < q then none
  else some { p with nomins := p.nomins + q, issued_nomins := p.issued_nomins + q }

/-- Modelled from the spec: Mint.burn_nomins (section 4.3).  Fails when the
quantity exceeds the available stablecoin balance or the issued liability;
otherwise decreases both by the quantity. -/
def burn_nomins (q : ℚ) (p : MarketPlayer) : Option MarketPlayer :=
  if p.nomins - p.unavailable_nomins < q ∨ p.issued_nomins < q then none
  else some { p with nomins := p.nomins - q, issued_nomins := p.issued_nomins - q }

/-- Modelled from the spec: the ledger transfer behind the wrappers
transfer_fiat_to, transfer_havvens_to and transfer_nomins_to (the market
manager module is missing from the embedded sources).  Per sections 4.1
and 7: a non-positive quantity or a quantity exceeding the sender's
available balance is a failure leaving both accounts unchanged; otherwise
the sender's balance is decremented and the recipient's incremented
atomically. -/
def transferAsset (x : Asset) (sender recipient : MarketPlayer) (value : ℚ) :
    Bool × MarketPlayer × MarketPlayer :=
  if 0 < value ∧ value ≤ availableOf x sender then
    (true, addBalance x (-value) sender, addBalance x value recipient)
  else (false, sender, recipient)

/-- MarketPlayer.transfer_fiat_to (marketplayer.py lines 148-154). -/
def transfer_fiat_to (sender recipient : MarketPlayer) (value : ℚ) :
    Bool × MarketPlayer × MarketPlayer :=
  transferAsset .fiat sender recipient value

/-- Havven.endow_curits (model.py lines 123-128) acting on the remaining
model curit pool and the agent's curit balance: a positive request grants
the minimum of the pool and the request, removing it from the pool; any
other request changes nothing.  Returns the new agent balance and pool. -/
def endow_curits (pool agent_curits curits : ℚ) : ℚ × ℚ :=
  if 0 < curits then
    let value := min pool curits
    (agent_curits + value, pool - value)
  else (agent_curits, pool)

/-- The three order books of the model, named as in model.py: the
collateral-stable, collateral-fiat and stable-fiat markets. -/
inductive Market : Type
  | cur_nom
  | cur_fiat
  | nom_fiat
deriving DecidableEq

/-- The externally observable actions performed by one Havven.step. -/
inductive StepEvent : Type
  | agentsAct
  | matchBook (m : Market)
  | distributeFees
  | collectData
deriving DecidableEq

/-- The trace of actions of Havven.step (model.py lines 130-148): the agent
schedule acts, then in batch mode the three books are matched in the fixed
order cur_nom, cur_fiat, nom_fiat, then fees are distributed when the step
counter is a multiple of the fee period, then data is collected. -/
def stepEvents (matchOnOrder : Bool) (time feePeriod : ℕ) : List StepEvent :=
  [StepEvent.agentsAct]
    ++ (if matchOnOrder then []
        else [StepEvent.matchBook Market.cur_nom,
              StepEvent.matchBook Market.cur_fiat,
              StepEvent.matchBook Market.nom_fiat])
    ++ (if time % feePeriod = 0 then [StepEvent.distributeFees] else [])
    ++ [StepEvent.collectData]

/-- A resting ask level: a price in the quoted asset and a remaining
quantity in the base asset. -/
structure Ask : Type where
  price : ℚ
  quantity : ℚ
deriving DecidableEq

/-- A bid as returned to the caller: its limit price, its remaining
quantity and whether it still rests on the book. -/
structure Bid : Type where
  price : ℚ
  quantity : ℚ
  active : Bool
deriving DecidableEq

/-- Modelled from the spec: an order book (orderbook.py is missing from the
embedded sources).  The model keeps the base and quoted asset tags, the
ask queue sorted by ascending price, the last executed price and the fee
rate; the bid queue is not tracked since the embedded operations only
return the caller's own bid. -/
structure OrderBook : Type where
  base : Asset
  quoted : Asset
  asks : List Ask
  price : ℚ
  feeRate : ℚ
deriving DecidableEq

/-- The dust threshold of 0.0005 units below which trade requests are
ignored and remaining order quantities are treated as fully filled. -/
def dustThreshold : ℚ := 1/2000

/-- Modelled from the spec: OrderBook.lowest_ask_price.  The spec leaves
the empty-book case open (section 9); the last executed price is used,
matching the last-touched-price rule for resting remainders. -/
def OrderBook.lowest_ask_price (b : OrderBook) : ℚ :=
  match b.asks with
  | [] => b.price
  | a :: _ => a.price

/-- Modelled from the spec: OrderBook.lowest_ask_quantity, zero when the
ask queue is empty. -/
def OrderBook.lowest_ask_quantity (b : OrderBook) : ℚ :=
  match b.asks with
  | [] => 0
  | a :: _ => a.quantity

/-- The outcome of walking the ask queue: base quantity bought, quoted
quantity spent, last executed price if any trade happened, and the
remaining ask queue. -/
structure FillResult : Type where
  baseFilled : ℚ
  quotedSpent : ℚ
  lastPrice : Option ℚ
  asks : List Ask
deriving DecidableEq

/-- Modelled from the spec: the market-buy walk (section 4.2).  Consume the
best ask levels up to the needed base quantity, bounded by the caller's
available quoted reserve; each trade executes at the resting ask's price;
a level whose remainder falls below the dust threshold is removed. -/
def walkAsks : List Ask → ℚ → ℚ → FillResult
  | [], _, _ => ⟨0, 0, none, []⟩
  | a :: rest, need, availQ =>
    let t := min (min need a.quantity) (availQ / a.price)
    if t ≤ 0 then ⟨0, 0, none, a :: rest⟩
    else if a.quantity - t < dustThreshold then
      let r := walkAsks rest (need - t) (availQ - t * a.price)
      ⟨t + r.baseFilled, t * a.price + r.quotedSpent,
        some (r.lastPrice.getD a.price), r.asks⟩
    else
      ⟨t, t * a.price, some a.price, ⟨a.price, a.quantity - t⟩ :: rest⟩

/-- Modelled from the spec: the crossing walk of a limit bid (section 4.2).
Consume ask levels whose price does not exceed the bid price, trading at
the resting ask's price, until the bid quantity is exhausted. -/
def crossBid : List Ask → ℚ → ℚ → FillResult
  | [], _, _ => ⟨0, 0, none, []⟩
  | a :: rest, bidPrice, need =>
    if need ≤ 0 ∨ bidPrice < a.price then ⟨0, 0, none, a :: rest⟩
    else
      let t := min need a.quantity
      if a.quantity - t < dustThreshold then
        let r := crossBid rest bidPrice (need - t)
        ⟨t + r.baseFilled, t * a.price + r.quotedSpent,
          some (r.lastPrice.getD a.price), r.asks⟩
      else
        ⟨t, t * a.price, some a.price, ⟨a.price, a.quantity - t⟩ :: rest⟩

/-- Modelled from the spec: OrderBook.buy (section 4.2).  A request below
the dust threshold returns no order and changes nothing; otherwise the ask
queue is walked up to the requested base quantity, bounded by the caller's
available quoted reserve, the buyer pays the quoted proceeds and receives
the base quantity net of the fee, and an unfilled remainder above the dust
threshold rests as an active bid at the last touched price, reserving its
quoted value. -/
def OrderBook.buy (book : OrderBook) (qty : ℚ) (p : MarketPlayer) :
    Option Bid × MarketPlayer × OrderBook :=
  if qty < dustThreshold then (none, p, book)
  else
    let r := walkAsks book.asks qty (availableOf book.quoted p)
    let lastP := r.lastPrice.getD book.price
    let p1 := addBalance book.base (r.baseFilled * (1 - book.feeRate))
      (addBalance book.quoted (-r.quotedSpent) p)
    let remainder := qty - r.baseFilled
    if remainder < dustThreshold then
      (some ⟨lastP, remainder, false⟩, p1, { book with asks := r.asks, price := lastP })
    else
      (some ⟨lastP, remainder, true⟩,
        addUnavailable book.quoted (remainder * lastP) p1,
        { book with asks := r.asks, price := lastP })

/-- Modelled from the spec: OrderBook.bid (section 4.2), in immediate-match
mode.  A quantity below the dust threshold, or a reservation the caller's
available quoted balance cannot cover, produces no order; otherwise the
bid crosses the resting asks priced at or below its limit, trading at the
resting prices, and a remainder above the dust threshold rests as an
active bid holding a reservation of its quoted value. -/
def OrderBook.bid (book : OrderBook) (price qty : ℚ) (p : MarketPlayer) :
    Option Bid × MarketPlayer × OrderBook :=
  if qty < dustThreshold then (none, p, book)
  else if availableOf book.quoted p < price * qty then (none, p, book)
  else
    let r := crossBid book.asks price qty
    let lastP := r.lastPrice.getD book.price
    let p1 := addBalance book.base (r.baseFilled * (1 - book.feeRate))
      (addBalance book.quoted (-r.quotedSpent) p)
    let remainder := qty - r.baseFilled
    if remainder < dustThreshold then
      (some ⟨price, remainder, false⟩, p1, { book with asks := r.asks, price := lastP })
    else
      (some ⟨price, remainder, true⟩,
        addUnavailable book.quoted (remainder * price) p1,
        { book with asks := r.asks, price := lastP })

/-- Modelled from the spec: LimitOrder.cancel on a bid (section 4.2).
Cancelling an active bid deactivates it and releases its reservation;
cancelling an inactive order is a failure that changes nothing. -/
def cancelBid (b : Bid) (quoted : Asset) (p : MarketPlayer) :
    Bid × MarketPlayer :=
  if b.active then
    ({ b with active := false }, addUnavailable quoted (-(b.price * b.quantity)) p)
  else (b, p)

/-- The while loop of MarketPlayer._sell_quoted (marketplayer.py lines
241-246), embedded with a fuel argument.  The source loop keeps bidding
while the previous bid exists and is inactive, the quoted total sold is
below the requested quantity, and the ask queue length equals zero; any
fuel bounding the iteration count gives the loop's exact behaviour, and
two units always suffice because an iteration with an empty ask queue
requests a zero quantity, which the book refuses. -/
def sellQuotedLoop (quantity : ℚ) :
    ℕ → Option Bid × MarketPlayer × OrderBook × ℚ →
    Option Bid × MarketPlayer × OrderBook × ℚ
  | 0, st => st
  | n + 1, (bo, p, book, totalSold) =>
    match bo with
    | none => (none, p, book, totalSold)
    | some b =>
      if b.active = false ∧ totalSold < quantity ∧ book.asks = [] then
        let nextQty := round_decimal
          (min (quantity - totalSold) book.lowest_ask_quantity / book.lowest_ask_price)
        let pre := availableOf book.quoted p
        let r := book.buy nextQty p
        sellQuotedLoop quantity n
          (r.1, r.2.1, r.2.2, totalSold + (pre - availableOf r.2.2.quoted r.2.1))
      else (some b, p, book, totalSold)

/-- MarketPlayer._sell_quoted (marketplayer.py lines 227-254): sell a
quantity of the quoted currency into the given market.  The quantity is
capped at the caller's available quoted balance; below the dust threshold
nothing happens; otherwise the first ask level is bought, the source's
while loop runs, and any shortfall is rested as a bid at the current
lowest ask price after cancelling the previous bid. -/
def sell_quoted (book : OrderBook) (p : MarketPlayer) (quantity0 : ℚ) :
    Option Bid × MarketPlayer × OrderBook :=
  let quantity := min quantity0 (availableOf book.quoted p)
  if quantity < dustThreshold then (none, p, book)
  else
    let nextQty := round_decimal
      (min quantity book.lowest_ask_quantity / book.lowest_ask_price)
    let pre := availableOf book.quoted p
    let r1 := book.buy nextQty p
    let totalSold := pre - availableOf r1.2.2.quoted r1.2.1
    let st := sellQuotedLoop quantity (book.asks.length + 2)
      (r1.1, r1.2.1, r1.2.2, totalSold)
    if st.2.2.2 < quantity then
      let pc := match st.1 with
        | none => st.2.1
        | some b => (cancelBid b st.2.2.1.quoted st.2.1).2
      let price := st.2.2.1.lowest_ask_price
      st.2.2.1.bid price (round_decimal ((quantity - st.2.2.2) / price)) pc
    else (st.1, st.2.1, st.2.2.1)

/-- The total resting ask liquidity of a book, valued in the quoted asset. -/
def askLiquidity (b : OrderBook) : ℚ :=
  (b.asks.map (fun a => a.price * a.quantity)).sum

/-- A freshly constructed player with every balance zero. -/
def playerZero : MarketPlayer :=
  ⟨0, 0, 0, 0, 0, 0, 0, 0, 0⟩

/-- A pricing oracle valuing both tokens at one fiat unit. -/
def modelUnit : HavvenModel := ⟨1, 1⟩

/-- The collateral-fiat market of the failing input for the market-buy
walk: three one-unit ask levels at prices one, two and three, last
executed price one, no fee. -/
def bookThreeAsks : OrderBook :=
  ⟨Asset.havvens, Asset.fiat, [⟨1, 1⟩, ⟨2, 1⟩, ⟨3, 1⟩], 1, 0⟩

/-- The buyer of the failing input, holding one hundred fiat. -/
def playerHundredFiat : MarketPlayer :=
  { playerZero with fiat := 100 }

/-- The buyer's state after the first buy of the failing input: one fiat
spent on the first ask level, one havven received. -/
def playerAfterFirstBuy : MarketPlayer :=
  { playerZero with fiat := 99, havvens := 1 }

/-- The book after the first buy of the failing input: the first ask level
consumed, the last executed price one. -/
def bookAfterFirstBuy : OrderBook :=
  ⟨Asset.havvens, Asset.fiat, [⟨2, 1⟩, ⟨3, 1⟩], 1, 0⟩

/-- The buyer's final state on the failing input: two fiat more spent on
the second ask level, a second havven received, and seven fiat reserved
behind the rested shortfall bid. -/
def playerFinal : MarketPlayer :=
  { playerZero with fiat := 97, havvens := 2, unavailable_fiat := 7 }

/-- The final book of the failing input: the third ask level still rests. -/
def bookFinal : OrderBook :=
  ⟨Asset.havvens, Asset.fiat, [⟨3, 1⟩], 2, 0⟩

theorem evalFirstBuy :
    bookThreeAsks.buy 1 playerHundredFiat =
      (some ⟨1, 0, false⟩, playerAfterFirstBuy, bookAfterFirstBuy) := by
  norm_num [OrderBook.buy, walkAsks, availableOf, available_fiat, addBalance,
    addUnavailable, round_decimal, roundHalfEven, dustThreshold, min_def,
    Option.getD, bookThreeAsks, playerHundredFiat, playerZero,
    playerAfterFirstBuy, bookAfterFirstBuy]

theorem evalAvailAfterFirstBuy :
    availableOf Asset.fiat playerAfterFirstBuy = 99 := by
  norm_num [availableOf, available_fiat, playerAfterFirstBuy,
    playerZero, round_decimal, roundHalfEven]

theorem sellQuotedLoop_exit (q : ℚ) (n : ℕ) (b : Bid) (p : MarketPlayer)
    (bk : OrderBook) (ts : ℚ) (h : ¬(b.active = false ∧ ts < q ∧ bk.asks = [])) :
    sellQuotedLoop q n (some b, p, bk, ts) = (some b, p, bk, ts) := by
  cases n with
  | zero => rfl
  | succ m =>
    simp only [sellQuotedLoop]
    rw [if_neg h]

theorem evalFinalBid :
    bookAfterFirstBuy.bid 2 (9/2) playerAfterFirstBuy =
      (some ⟨2, 7/2, true⟩, playerFinal, bookFinal) := by
  norm_num [OrderBook.bid, crossBid, availableOf, available_fiat, addBalance,
    addUnavailable, round_decimal, roundHalfEven, dustThreshold, min_def,
    Option.getD, bookAfterFirstBuy, playerAfterFirstBuy, playerZero,
    playerFinal, bookFinal]

theorem evalAvailStart :
    availableOf bookThreeAsks.quoted playerHundredFiat = 100 := by
  norm_num [availableOf, available_fiat, bookThreeAsks, playerHundredFiat,
    playerZero, round_decimal, roundHalfEven]

theorem bookThreeAsks_laq : bookThreeAsks.lowest_ask_quantity = 1 := rfl

theorem bookThreeAsks_lap : bookThreeAsks.lowest_ask_price = 1 := rfl

theorem bookAfterFirstBuy_asks :
    bookAfterFirstBuy.asks = [⟨2, 1⟩, ⟨3, 1⟩] := rfl

theorem bookAfterFirstBuy_lap : bookAfterFirstBuy.lowest_ask_price = 2 := rfl

theorem bookAfterFirstBuy_quoted : bookAfterFirstBuy.quoted = Asset.fiat := rfl

theorem evalLoop (n : ℕ) :
    sellQuotedLoop 10 n
      (some ⟨1, 0, false⟩, playerAfterFirstBuy, bookAfterFirstBuy, 1) =
      (some ⟨1, 0, false⟩, playerAfterFirstBuy, bookAfterFirstBuy, 1) := by
  apply sellQuotedLoop_exit
  simp [bookAfterFirstBuy_asks]

/-- Claim C1: a quoted-currency market sell whose requested quantity,
capped at the caller's available quoted balance, is strictly below the
dust threshold of 0.0005 units returns no order and leaves the caller and
the book, hence every balance and reservation counter, unchanged. -/
theorem sell_quoted_dust_noop (book : OrderBook) (p : MarketPlayer) (q : ℚ)
    (h : min q (availableOf book.quoted p) < dustThreshold) :
    sell_quoted book p q = (none, p, book) := by
  simp [sell_quoted, h]

/-- An empty collateral-stable market for the dust-threshold witness. -/
def bookEmptyNomins : OrderBook := ⟨Asset.havvens, Asset.nomins, [], 1, 0⟩

theorem sell_quoted_dust_noop_witness :
    min 1 (availableOf bookEmptyNomins.quoted playerZero) < dustThreshold ∧
      sell_quoted bookEmptyNomins playerZero 1 = (none, playerZero, bookEmptyNomins) := by
  have h : min 1 (availableOf bookEmptyNomins.quoted playerZero) < dustThreshold := by
    norm_num [availableOf, available_nomins, bookEmptyNomins, playerZero,
      round_decimal, roundHalfEven, dustThreshold, min_def]
  exact ⟨h, sell_quoted_dust_noop bookEmptyNomins playerZero 1 h⟩

/-- An account holding an off-precision fiat balance of ten to the minus
nine, as the unrounded constructor of the source permits. -/
def playerTinyFiat : MarketPlayer := { playerZero with fiat := 1/10^9 }

/-- Claim C2, counterexample: on an account whose fiat balance carries more
than eight decimal places the reported available fiat is not exactly the
balance minus the reservation, because the accessor rounds. -/
theorem available_fiat_not_exact :
    ¬ available_fiat playerTinyFiat =
        playerTinyFiat.fiat - playerTinyFiat.unavailable_fiat := by
  norm_num [available_fiat, playerTinyFiat, playerZero, round_decimal,
    roundHalfEven]

/-- Claim C2, amended: the available balance of each asset is the
canonical rounding of the balance minus the reservation counter, so it
equals that difference exactly whenever the difference lies at the
rounding precision of eight decimal places. -/
theorem available_eq_sub_of_atPrecision (p : MarketPlayer) (x : Asset)
    (h : atPrecision (balanceOf x p - unavailableOf x p)) :
    availableOf x p = balanceOf x p - unavailableOf x p := by
  rw [availableOf_eq, round_decimal_atPrecision h]

/-- An account holding three halves of a fiat unit, at precision. -/
def playerPreciseFiat : MarketPlayer := { playerZero with fiat := 3/2 }

theorem available_eq_sub_of_atPrecision_witness :
    availableOf Asset.fiat playerPreciseFiat =
      balanceOf Asset.fiat playerPreciseFiat -
        unavailableOf Asset.fiat playerPreciseFiat :=
  available_eq_sub_of_atPrecision playerPreciseFiat Asset.fiat
    ⟨150000000, by norm_num [balanceOf, unavailableOf, playerPreciseFiat, playerZero]⟩

/-- Claim C3: evaluation of the embedded code at the failing input.  The
requested quoted quantity ten exceeds the total resting ask liquidity of
six and the available reserve of one hundred covers it, yet the market
sell leaves the third ask level resting on the book: the source's refill
loop only iterates when the ask queue is already empty, so the walk stops
after the first level and the shortfall is bid at the second level's
price, consuming that level alone. -/
theorem sell_quoted_leaves_asks_resting :
    askLiquidity bookThreeAsks < 10 ∧
      10 ≤ availableOf bookThreeAsks.quoted playerHundredFiat ∧
      sell_quoted bookThreeAsks playerHundredFiat 10 =
        (some ⟨2, 7/2, true⟩, playerFinal, bookFinal) ∧
      bookFinal.asks ≠ [] := by
  refine ⟨by norm_num [askLiquidity, bookThreeAsks], ?_, ?_, by simp [bookFinal]⟩
  · rw [evalAvailStart]
    norm_num
  · norm_num [sell_quoted, evalAvailStart, bookThreeAsks_laq, bookThreeAsks_lap,
      evalFirstBuy, evalAvailAfterFirstBuy, evalLoop,
      bookAfterFirstBuy_asks, bookAfterFirstBuy_lap, bookAfterFirstBuy_quoted,
      evalFinalBid, cancelBid, round_decimal, roundHalfEven, dustThreshold,
      min_def]

/-- Claim C4: a successful issuance is wealth-neutral, because it raises
the stablecoin balance and the issued liability by the same quantity and
wealth values only their difference. -/
theorem issue_wealth_neutral (m : HavvenModel) (cfg : MintConfig) (q : ℚ)
    (p p' : MarketPlayer) (h : issue_nomins cfg q p = some p') :
    wealth m p' = wealth m p := by
  by_cases hc : max_issuance_rights cfg p - p.issued_nomins < q
  · simp [issue_nomins, hc] at h
  · simp [issue_nomins, hc] at h
    subst h
    simp only [wealth, fiat_value]
    ring

/-- The mint configuration of the specification's scenario: oracle price
two, utilisation ratio cap four fifths. -/
def mintCfg : MintConfig := ⟨2, 4/5⟩

/-- An account that escrowed one hundred collateral units. -/
def playerEscrowed : MarketPlayer := { playerZero with escrowed_havvens := 100 }

/-- The same account after issuing one hundred stablecoin units. -/
def playerIssued : MarketPlayer :=
  { playerEscrowed with nomins := 100, issued_nomins := 100 }

theorem issue_wealth_neutral_witness :
    wealth modelUnit playerIssued = wealth modelUnit playerEscrowed :=
  issue_wealth_neutral modelUnit mintCfg 100 playerEscrowed playerIssued
    (by norm_num [issue_nomins, max_issuance_rights, mintCfg, playerEscrowed,
      playerIssued, playerZero])

/-- Claim C5: in batch mode every model step matches the three books in
the fixed order cur_nom, cur_fiat and nom_fiat immediately after the
agents act, and no matching happens later in the step, so in particular
any fee distribution of the step comes after all matching. -/
theorem batch_match_order (t p : ℕ) :
    ∃ tail, stepEvents false t p =
        StepEvent.agentsAct :: StepEvent.matchBook Market.cur_nom ::
        StepEvent.matchBook Market.cur_fiat ::
        StepEvent.matchBook Market.nom_fiat :: tail ∧
      ∀ m, StepEvent.matchBook m ∉ tail := by
  refine ⟨(if t % p = 0 then [StepEvent.distributeFees] else [])
    ++ [StepEvent.collectData], ?_, ?_⟩
  · by_cases h : t % p = 0 <;> simp [stepEvents, h]
  · intro m
    by_cases h : t % p = 0 <;> simp [h]

/-- Claim C6: a model step distributes fees exactly when the step counter
is a multiple of the fee period. -/
theorem fee_distribution_period (mo : Bool) (t p : ℕ) :
    StepEvent.distributeFees ∈ stepEvents mo t p ↔ p ∣ t := by
  have hiff : p ∣ t ↔ t % p = 0 := Nat.dvd_iff_mod_eq_zero
  by_cases h : t % p = 0
  · cases mo <;> simp [stepEvents, h, hiff.mpr h]
  · have hnd : ¬ p ∣ t := fun hd => h (hiff.mp hd)
    cases mo <;> simp [stepEvents, h, hnd]

/-- Claim C7: issuing a quantity and burning the same quantity with no
intervening trade restores both the stablecoin balance and the issued
liability to their pre-issue values. -/
theorem issue_burn_roundtrip (cfg : MintConfig) (q : ℚ) (p p1 : MarketPlayer)
    (hissue : issue_nomins cfg q p = some p1)
    (hres : p.unavailable_nomins ≤ p.nomins) (hiss : 0 ≤ p.issued_nomins) :
    ∃ p2, burn_nomins q p1 = some p2 ∧ p2.nomins = p.nomins ∧
      p2.issued_nomins = p.issued_nomins := by
  by_cases hc : max_issuance_rights cfg p - p.issued_nomins < q
  · simp [issue_nomins, hc] at hissue
  · simp [issue_nomins, hc] at hissue
    subst hissue
    have hb : burn_nomins q { p with nomins := p.nomins + q, issued_nomins := p.issued_nomins + q } = some { p with nomins := p.nomins + q - q, issued_nomins := p.issued_nomins + q - q } := by
      simp only [burn_nomins]
      rw [if_neg (by
        simp only [not_or, not_lt]
        exact ⟨by show q ≤ p.nomins + q - p.unavailable_nomins; linarith,
          by show q ≤ p.issued_nomins + q; linarith⟩)]
    exact ⟨_, hb, by simp, by simp⟩

theorem issue_burn_roundtrip_witness :
    ∃ p2, burn_nomins 100 playerIssued = some p2 ∧
      p2.nomins = playerEscrowed.nomins ∧
      p2.issued_nomins = playerEscrowed.issued_nomins :=
  issue_burn_roundtrip mintCfg 100 playerEscrowed playerIssued
    (by norm_num [issue_nomins, max_issuance_rights, mintCfg, playerEscrowed,
      playerIssued, playerZero])
    (by norm_num [playerEscrowed, playerZero])
    (by norm_num [playerEscrowed, playerZero])

/-- Claim C8: a successful transfer decreases the sender's available
balance of the asset by the quantity, increases the recipient's balance
by the quantity and conserves the combined supply of the two accounts;
a transfer exceeding the sender's available balance fails and leaves both
accounts unchanged.  The precision hypotheses reflect the canonical
rounding applied at every mutation, which keeps reachable balances at the
rounding precision. -/
theorem transfer_atomic (x : Asset) (s r : MarketPlayer) (v : ℚ)
    (hb : atPrecision (balanceOf x s)) (hu : atPrecision (unavailableOf x s))
    (hv : atPrecision v) :
    (∀ s' r', transferAsset x s r v = (true, s', r') →
        availableOf x s' = availableOf x s - v ∧
        balanceOf x r' = balanceOf x r + v ∧
        balanceOf x s' + balanceOf x r' = balanceOf x s + balanceOf x r) ∧
    (availableOf x s < v → transferAsset x s r v = (false, s, r)) := by
  constructor
  · intro s' r' h
    by_cases hc : 0 < v ∧ v ≤ availableOf x s
    · simp only [transferAsset, if_pos hc, Prod.mk.injEq, true_and] at h
      obtain ⟨hs, hr⟩ := h
      subst hs
      subst hr
      obtain ⟨n, hn⟩ := hb
      obtain ⟨m, hm⟩ := hu
      obtain ⟨k, hk⟩ := hv
      refine ⟨?_, ?_, ?_⟩
      · rw [availableOf_eq, availableOf_eq, balanceOf_addBalance,
          unavailableOf_addBalance, hn, hm, hk]
        rw [show (n:ℚ)/10^8 + -((k:ℚ)/10^8) - (m:ℚ)/10^8
            = ((n - k - m : ℤ) : ℚ)/10^8 by push_cast; ring]
        rw [show (n:ℚ)/10^8 - (m:ℚ)/10^8 = ((n - m : ℤ) : ℚ)/10^8 by
          push_cast; ring]
        rw [round_decimal_atPrecision ⟨_, rfl⟩,
          round_decimal_atPrecision ⟨_, rfl⟩]
        push_cast
        ring
      · rw [balanceOf_addBalance]
      · rw [balanceOf_addBalance, balanceOf_addBalance]
        ring
    · simp [transferAsset, hc] at h
  · intro hlt
    simp only [transferAsset]
    rw [if_neg]
    rintro ⟨h1, h2⟩
    linarith

/-- A sender holding ten fiat for the transfer witness. -/
def senderTenFiat : MarketPlayer := { playerZero with fiat := 10 }

theorem transfer_atomic_witness :
    ∃ s' r', transferAsset Asset.fiat senderTenFiat playerZero 5 = (true, s', r') ∧
      availableOf Asset.fiat s' = availableOf Asset.fiat senderTenFiat - 5 := by
  have h : transferAsset Asset.fiat senderTenFiat playerZero 5 =
      (true, addBalance Asset.fiat (-5) senderTenFiat,
        addBalance Asset.fiat 5 playerZero) := by
    simp only [transferAsset]
    rw [if_pos]
    refine ⟨by norm_num, ?_⟩
    norm_num [availableOf, available_fiat, senderTenFiat, playerZero,
      round_decimal, roundHalfEven]
  exact ⟨_, _, h,
    ((transfer_atomic Asset.fiat senderTenFiat playerZero 5
      ⟨1000000000, by norm_num [balanceOf, senderTenFiat, playerZero]⟩
      ⟨0, by norm_num [unavailableOf, senderTenFiat, playerZero]⟩
      ⟨500000000, by norm_num⟩).1 _ _ h).1⟩

/-- Claim C9: profit_fraction is total and guards its division: when the
rounded initial wealth is zero it returns exactly zero, and otherwise the
initial wealth itself is nonzero and the result is the rounded quotient
of profit over initial wealth. -/
theorem profit_fraction_total (m : HavvenModel) (p : MarketPlayer) :
    (round_decimal p.initial_wealth = 0 → profit_fraction m p = 0) ∧
    (round_decimal p.initial_wealth ≠ 0 →
      p.initial_wealth ≠ 0 ∧
      profit_fraction m p = round_decimal (profit m p / p.initial_wealth)) := by
  constructor
  · intro h
    simp [profit_fraction, h]
  · intro h
    refine ⟨?_, by simp [profit_fraction, h]⟩
    intro h0
    apply h
    rw [h0, round_decimal_zero]

/-- An account with initial wealth one and three fiat. -/
def playerUnitWealth : MarketPlayer :=
  { playerZero with initial_wealth := 1, fiat := 3 }

theorem profit_fraction_total_witness :
    profit_fraction modelUnit playerZero = 0 ∧
      profit_fraction modelUnit playerUnitWealth =
        round_decimal
          (profit modelUnit playerUnitWealth / playerUnitWealth.initial_wealth) :=
  ⟨(profit_fraction_total modelUnit playerZero).1
      (by norm_num [playerZero, round_decimal, roundHalfEven]),
   ((profit_fraction_total modelUnit playerUnitWealth).2
      (by norm_num [playerUnitWealth, playerZero, round_decimal,
        roundHalfEven])).2⟩

/-- Claim C10: a positive endowment request grants exactly the minimum of
the remaining pool and the request, decrements the pool by the same
value, conserves the combined total of the agent's holding and the pool,
and keeps a non-negative pool non-negative; a non-positive request
changes nothing. -/
theorem endow_curits_grant (pool agent req : ℚ) :
    (0 < req →
      (endow_curits pool agent req).1 = agent + min pool req ∧
      (endow_curits pool agent req).2 = pool - min pool req ∧
      (endow_curits pool agent req).1 + (endow_curits pool agent req).2
        = agent + pool ∧
      (0 ≤ pool → 0 ≤ (endow_curits pool agent req).2)) ∧
    (req ≤ 0 → endow_curits pool agent req = (agent, pool)) := by
  constructor
  · intro h
    have h1 : endow_curits pool agent req
        = (agent + min pool req, pool - min pool req) := by
      simp [endow_curits, if_pos h]
    rw [h1]
    refine ⟨rfl, rfl, by ring, ?_⟩
    intro hp
    show 0 ≤ pool - min pool req
    rcases le_total pool req with hle | hle
    · rw [min_eq_left hle]
      linarith
    · rw [min_eq_right hle]
      linarith
  · intro h
    simp [endow_curits, not_lt.mpr h]

theorem endow_curits_grant_witness :
    (endow_curits 5 0 8).1 = 0 + min 5 8 ∧ 0 ≤ (endow_curits 5 0 8).2 :=
  ⟨((endow_curits_grant 5 0 8).1 (by norm_num)).1,
   ((endow_curits_grant 5 0 8).1 (by norm_num)).2.2.2 (by norm_num)⟩
